import Mathlib

/-!
Shallow embedding of the autoscaler v2 instance launcher
(`python/ray/autoscaler/v2/instance_manager/instance_launcher.py`).

Registry (`InstanceStorage`) interactions are modelled abstractly: each
`upsert_instance` call made by the launcher is recorded as an `UpsertCall`
event, and its `(success, new_version)` reply is supplied by an environment
`env : Nat → Bool × Nat` indexed by the sequence number of the call within
the modelled procedure.  The environment stands for arbitrary concurrent
interference arbitrated by the store's compare-and-set discipline.  The node
provider's `create_nodes` is a function parameter; its calls and the
`terminate_nodes` calls are recorded in the trace.
-/

namespace RayAutoscaler

/-- Instance status values used by the launcher (from the instance manager
protobuf). -/
inductive Status where
  | UNKNOWN
  | QUEUED
  | REQUESTED
  | ALLOCATED
  | ALLOCATION_FAILED
  | TERMINATING
  | TERMINATED
  deriving DecidableEq

/-- An instance record as read from the instance storage. -/
structure Instance where
  id : Nat
  instance_type : String
  status : Status
  version : Nat
  cloud_instance_id : String
  internal_ip : String
  external_ip : String
  deriving DecidableEq

/-- A cloud instance returned by `NodeProvider.create_nodes`. -/
structure CloudInstance where
  cloud_instance_id : String
  internal_ip : String
  external_ip : String
  deriving DecidableEq

/-- One recorded call to `InstanceStorage.upsert_instance`: the targeted
record id, the status being written, the `expected_instance_version` passed,
and the success flag the storage replied with. -/
structure UpsertCall where
  id : Nat
  status : Status
  expected_version : Nat
  success : Bool
  deriving DecidableEq

/-- The REQUESTED loop of `_launch_new_instances_by_type` (source lines
96-105): for each instance, set `status = REQUESTED`, call `upsert_instance`
with `expected_instance_version = instance.version`, and — regardless of the
result (the source only logs a warning on failure) — set `instance.version`
to the returned version and append the instance to `instances_selected`.
`k` is the sequence number of the next upsert call. -/
def requestedPhase (env : Nat → Bool × Nat) : Nat → List Instance → List UpsertCall × List Instance
  | _, [] => ([], [])
  | k, inst :: rest =>
    let res := env k
    let call : UpsertCall :=
      { id := inst.id, status := Status.REQUESTED, expected_version := inst.version,
        success := res.1 }
    let inst2 : Instance := { inst with status := Status.REQUESTED, version := res.2 }
    let next := requestedPhase env (k + 1) rest
    (call :: next.1, inst2 :: next.2)

/-- The final loop of `_launch_new_instances_by_type` (source lines 142-148):
every instance still in `instances_selected` has its status set to
ALLOCATION_FAILED and an `upsert_instance` CAS attempted with
`expected_instance_version = instance.version`. -/
def allocationFailedPhase (env : Nat → Bool × Nat) : Nat → List Instance → List UpsertCall
  | _, [] => []
  | k, inst :: rest =>
    let res := env k
    { id := inst.id, status := Status.ALLOCATION_FAILED, expected_version := inst.version,
      success := res.1 } :: allocationFailedPhase env (k + 1) rest

/-- Errors a chunk launch can raise: the `assert` on line 114, and the
attribute error raised by line 118 (see `pairingLoop`). -/
inductive ChunkErr where
  | assertionFailed
  | storagePopUndefined
  deriving DecidableEq

/-- Modelled from the spec: the pairing loop of `_launch_new_instances_by_type`
(source lines 116-134, `while created_cloud_instances and instances_selected:`).
The loop body begins with `cloud_instance = created_cloud_instances.pop()`
followed by `instance = self._instance_storage.pop()`.  `InstanceStorage` is
not under src; its interface is modelled from the spec (§4.1), which exposes
only `get_instances`, `upsert_instance` and subscription management — there
is no `pop` operation.  Executing the body therefore raises an attribute
error, modelled as `ChunkErr.storagePopUndefined`.  The body runs exactly
when both lists are non-empty; otherwise the loop exits with both lists
unchanged. -/
def pairingLoop (created : List CloudInstance) (selected : List Instance) :
    Except ChunkErr (List CloudInstance × List Instance) :=
  match created, selected with
  | [], s => Except.ok ([], s)
  | c :: cs, [] => Except.ok (c :: cs, [])
  | _ :: _, _ :: _ => Except.error ChunkErr.storagePopUndefined

/-- The observable interactions of one chunk launch: upsert calls in order,
`create_nodes` calls as (instance_type, count) pairs, and `terminate_nodes`
calls as lists of cloud instance ids. -/
structure ChunkTrace where
  upserts : List UpsertCall
  createCalls : List (String × Nat)
  terminateCalls : List (List String)
  deriving DecidableEq

instance : DecidableEq (Except ChunkErr Unit) := fun a b =>
  match a, b with
  | Except.ok (), Except.ok () => isTrue rfl
  | Except.error e1, Except.error e2 =>
    match decEq e1 e2 with
    | isTrue h => isTrue (by rw [h])
    | isFalse h => isFalse (fun hh => h (by cases hh; rfl))
  | Except.ok (), Except.error _ => isFalse (fun hh => Except.noConfusion hh)
  | Except.error _, Except.ok () => isFalse (fun hh => Except.noConfusion hh)

/-- Result of one chunk launch: its trace, plus whether it returned normally
or propagated an exception out of the worker. -/
structure ChunkRun where
  trace : ChunkTrace
  result : Except ChunkErr Unit
  deriving DecidableEq

/-- `_launch_new_instances_by_type(instance_type, instances)` (source lines
92-148).  `env` supplies the storage's reply to the k-th upsert call of this
invocation; `create` is `NodeProvider.create_nodes`.  Steps, in source order:
the REQUESTED loop; `if not instances_selected: return 0`;
`created_cloud_instances = create_nodes(instance_type, len(instances_selected))`;
`assert len(created_cloud_instances) <= len(instances_selected)`; the pairing
loop; `terminate_nodes` on any cloud instances left; the ALLOCATION_FAILED
loop on any instances left in `instances_selected`. -/
def launchChunk (env : Nat → Bool × Nat) (create : String → Nat → List CloudInstance)
    (instance_type : String) (instances : List Instance) : ChunkRun :=
  let phase1 := requestedPhase env 0 instances
  let calls1 := phase1.1
  let selected := phase1.2
  if selected.isEmpty then
    { trace := { upserts := calls1, createCalls := [], terminateCalls := [] },
      result := Except.ok () }
  else
    let created := create instance_type selected.length
    let createCall := (instance_type, selected.length)
    if created.length ≤ selected.length then
      match pairingLoop created selected with
      | Except.error e =>
        { trace := { upserts := calls1, createCalls := [createCall], terminateCalls := [] },
          result := Except.error e }
      | Except.ok (createdLeft, selectedLeft) =>
        let termCalls :=
          if createdLeft.isEmpty then []
          else [createdLeft.map (fun ci => ci.cloud_instance_id)]
        let calls2 :=
          if selectedLeft.isEmpty then []
          else allocationFailedPhase env instances.length selectedLeft
        { trace := { upserts := calls1 ++ calls2, createCalls := [createCall],
                     terminateCalls := termCalls },
          result := Except.ok () }
    else
      { trace := { upserts := calls1, createCalls := [createCall], terminateCalls := [] },
        result := Except.error ChunkErr.assertionFailed }

/-- The claiming loop of `_may_launch_new_instances` (source lines 63-73):
for each UNKNOWN instance, set `status = QUEUED` and attempt the CAS with
`expected_instance_version = instance.version`; only on success is the
version updated and the instance appended to `queued_instances`. -/
def queuedPhase (env : Nat → Bool × Nat) : Nat → List Instance → List UpsertCall × List Instance
  | _, [] => ([], [])
  | k, inst :: rest =>
    let res := env k
    let call : UpsertCall :=
      { id := inst.id, status := Status.QUEUED, expected_version := inst.version,
        success := res.1 }
    let next := queuedPhase env (k + 1) rest
    if res.1 then
      (call :: next.1, ({ inst with status := Status.QUEUED, version := res.2 } : Instance) :: next.2)
    else
      (call :: next.1, next.2)

/-- One step of the `defaultdict(list)` grouping loop (source lines 75-77):
append the instance to the list held under its `instance_type`, creating the
key at the end on first occurrence (python dicts preserve insertion order). -/
def addToGroups : List (String × List Instance) → Instance → List (String × List Instance)
  | [], i => [(i.instance_type, [i])]
  | (t, g) :: rest, i =>
    if t = i.instance_type then (t, g ++ [i]) :: rest
    else (t, g) :: addToGroups rest i

/-- `instances_by_type` built by the grouping loop over `queued_instances`. -/
def instancesByType (l : List Instance) : List (String × List Instance) :=
  l.foldl addToGroups []

/-- The chunking loop (source lines 80-90):
`for i in range(0, len(instances), m)` submit
`instances[i : min(i + m, len(instances))]`.  Equivalently the first `m`
elements, then the chunks of the rest.  (For `m = 0` python's `range` raises
`ValueError`; the launcher only uses `m = max_nodes_per_request ≥ 1`, and all
results below assume `0 < m`.) -/
def chunksOf (m : Nat) : List α → List (List α)
  | [] => []
  | a :: rest => (a :: rest.take (m - 1)) :: chunksOf m (rest.drop (m - 1))
termination_by l => l.length
decreasing_by simp [List.length_drop]; omega

/-- The observable behaviour of one reconciliation pass at its public
interface: the upsert calls it makes itself, and the chunks it submits to the
launch worker pool (provider calls happen only inside submitted chunks). -/
structure PassRun where
  upserts : List UpsertCall
  chunks : List (String × List Instance)
  deriving DecidableEq

/-- `_may_launch_new_instances` (source lines 54-90) given the snapshot of
UNKNOWN instances returned by `get_instances`: if the snapshot is empty,
return immediately; otherwise run the claiming loop, group the claimed
instances by type, and submit each slice of at most `m = max_nodes_per_request`
instances as one chunk. -/
def mayLaunchNewInstances (env : Nat → Bool × Nat) (m : Nat)
    (new_instances : List Instance) : PassRun :=
  if new_instances.isEmpty then { upserts := [], chunks := [] }
  else
    let phase := queuedPhase env 0 new_instances
    let groups := instancesByType phase.2
    { upserts := phase.1,
      chunks := (groups.map (fun g => (chunksOf m g.2).map (fun c => (g.1, c)))).flatten }

/-! Concrete inputs used by the counterexample and witness theorems. -/

/-- An environment in which every CAS succeeds, returning version `k + 10`. -/
def envAllOk : Nat → Bool × Nat := fun k => (true, k + 10)

/-- An environment in which every CAS fails (record mutated concurrently). -/
def envAllFail : Nat → Bool × Nat := fun _ => (false, 0)

/-- A provider that fulfils nothing (quota exhausted). -/
def createNone : String → Nat → List CloudInstance := fun _ _ => []

/-- A cloud resource used in concrete runs. -/
def cloudA : CloudInstance :=
  { cloud_instance_id := "c-a", internal_ip := "10.0.0.1", external_ip := "35.0.0.1" }

/-- A second cloud resource used in concrete runs. -/
def cloudB : CloudInstance :=
  { cloud_instance_id := "c-b", internal_ip := "10.0.0.2", external_ip := "35.0.0.2" }

/-- A provider that returns exactly one cloud resource. -/
def createOne : String → Nat → List CloudInstance := fun _ _ => [cloudA]

/-- A provider that returns exactly two cloud resources. -/
def createTwo : String → Nat → List CloudInstance := fun _ _ => [cloudA, cloudB]

/-- A QUEUED instance of type "small", id 1, version 3. -/
def instC1 : Instance :=
  { id := 1, instance_type := "small", status := Status.QUEUED, version := 3,
    cloud_instance_id := "", internal_ip := "", external_ip := "" }

/-- A QUEUED instance of type "small", id 2, version 5. -/
def instC2 : Instance :=
  { id := 2, instance_type := "small", status := Status.QUEUED, version := 5,
    cloud_instance_id := "", internal_ip := "", external_ip := "" }

/-- A QUEUED instance of type "gpu", id 3, version 7. -/
def instC3 : Instance :=
  { id := 3, instance_type := "gpu", status := Status.QUEUED, version := 7,
    cloud_instance_id := "", internal_ip := "", external_ip := "" }

/-- A QUEUED instance of type "small", id 4, version 2. -/
def instC4 : Instance :=
  { id := 4, instance_type := "small", status := Status.QUEUED, version := 2,
    cloud_instance_id := "", internal_ip := "", external_ip := "" }

/-- A QUEUED instance of type "small", id 5, version 1. -/
def instC5a : Instance :=
  { id := 5, instance_type := "small", status := Status.QUEUED, version := 1,
    cloud_instance_id := "", internal_ip := "", external_ip := "" }

/-- A QUEUED instance of type "small", id 6, version 1. -/
def instC5b : Instance :=
  { id := 6, instance_type := "small", status := Status.QUEUED, version := 1,
    cloud_instance_id := "", internal_ip := "", external_ip := "" }

/-- A successful upsert call writing ALLOCATED. -/
def allocatedWrite (c : UpsertCall) : Bool :=
  c.success && c.status == Status.ALLOCATED

/-- A successful CAS write of a terminal status (ALLOCATED or
ALLOCATION_FAILED). -/
def terminalWrite (c : UpsertCall) : Prop :=
  c.success = true ∧ (c.status = Status.ALLOCATED ∨ c.status = Status.ALLOCATION_FAILED)

/-- Relation between an earlier and a later upsert call in a trace: if the
earlier call is a successful terminal write, the later call does not target
the same record. -/
def noLaterCAS (c d : UpsertCall) : Prop :=
  terminalWrite c → d.id ≠ c.id

/-- Invariant tying `instances_by_type` to the list of claimed instances it
was built from: group keys are pairwise distinct, each group holds exactly
the claimed instances of its type in scan order, and every claimed
instance's type occurs as a key. -/
def GroupsFor (q : List Instance) (groups : List (String × List Instance)) : Prop :=
  ((groups.map Prod.fst).Nodup) ∧
  (∀ p ∈ groups, p.2 = q.filter (fun i => i.instance_type == p.1)) ∧
  (∀ i ∈ q, i.instance_type ∈ groups.map Prod.fst)

/-! Theorems. -/

/-- The pairing loop can only raise the storage-pop attribute error. -/
theorem pairingLoop_error_eq (created : List CloudInstance) (selected : List Instance)
    (e : ChunkErr) (h : pairingLoop created selected = Except.error e) :
    e = ChunkErr.storagePopUndefined := by
  cases created with
  | nil => simp [pairingLoop] at h
  | cons c cs =>
    cases selected with
    | nil => simp [pairingLoop] at h
    | cons a s =>
      simp [pairingLoop] at h
      exact h.symm

/-- If the pairing loop exits normally, it leaves both lists unchanged. -/
theorem pairingLoop_ok_eq (created : List CloudInstance) (selected : List Instance)
    (p : List CloudInstance × List Instance) (h : pairingLoop created selected = Except.ok p) :
    p = (created, selected) := by
  cases created with
  | nil =>
    simp [pairingLoop] at h
    exact h.symm
  | cons c cs =>
    cases selected with
    | nil =>
      simp [pairingLoop] at h
      exact h.symm
    | cons a s => simp [pairingLoop] at h

/-- Every call recorded by the REQUESTED loop writes status REQUESTED. -/
theorem requestedPhase_status (env : Nat → Bool × Nat) (k : Nat) (l : List Instance) :
    ∀ c ∈ (requestedPhase env k l).1, c.status = Status.REQUESTED := by
  induction l generalizing k with
  | nil => intro c hc; simp [requestedPhase] at hc
  | cons a rest ih =>
    intro c hc
    simp only [requestedPhase] at hc
    rcases List.mem_cons.mp hc with h | h
    · rw [h]
    · exact ih (k + 1) c h

/-- The REQUESTED loop keeps every instance of the chunk, in order: the ids
of `instances_selected` are exactly the ids of the chunk. -/
theorem requestedPhase_snd_ids (env : Nat → Bool × Nat) (k : Nat) (l : List Instance) :
    ((requestedPhase env k l).2).map (fun i => i.id) = l.map (fun i => i.id) := by
  induction l generalizing k with
  | nil => simp [requestedPhase]
  | cons a rest ih => simp [requestedPhase, ih (k + 1)]

/-- The ALLOCATION_FAILED loop records one call per remaining instance, in
order, targeting exactly their ids. -/
theorem allocationFailedPhase_ids (env : Nat → Bool × Nat) (k : Nat) (l : List Instance) :
    (allocationFailedPhase env k l).map (fun c => c.id) = l.map (fun i => i.id) := by
  induction l generalizing k with
  | nil => simp [allocationFailedPhase]
  | cons a rest ih => simp [allocationFailedPhase, ih (k + 1)]

/-- A trace consisting only of REQUESTED writes satisfies `noLaterCAS`
pairwise (no call in it is a terminal write). -/
theorem pairwise_noLater_of_requested (l : List UpsertCall)
    (h : ∀ c ∈ l, c.status = Status.REQUESTED) : l.Pairwise noLaterCAS := by
  induction l with
  | nil => exact List.Pairwise.nil
  | cons a rest ih =>
    refine List.Pairwise.cons ?_ (ih (fun c hc => h c (List.mem_cons_of_mem a hc)))
    intro d _ ht
    have ha := h a (List.mem_cons_self a rest)
    rcases ht.2 with h2 | h2 <;> rw [ha] at h2 <;> exact absurd h2 (by decide)

/-- C1: refuted on the source.  In the chunk run with one instance (REQUESTED
CAS succeeds) and a provider that creates one cloud resource, the pairing
phase aborts with the storage-pop attribute error: one resource was created,
none was linked ALLOCATED, and none was passed to `terminate_nodes`, so
linked + terminated ≠ created. -/
theorem c1_leak_bug :
    (createOne "small" 1).length = 1 ∧
    (launchChunk envAllOk createOne "small" [instC1]).trace.createCalls = [("small", 1)] ∧
    (launchChunk envAllOk createOne "small" [instC1]).result
      = Except.error ChunkErr.storagePopUndefined ∧
    (launchChunk envAllOk createOne "small" [instC1]).trace.upserts.countP allocatedWrite = 0 ∧
    (launchChunk envAllOk createOne "small" [instC1]).trace.terminateCalls = [] := by
  decide

/-- C2: refuted on the source.  A chunk of one instance whose REQUESTED CAS
fails still proceeds with that instance: `create_nodes` is called with count
1 (not 0), and the instance is later written ALLOCATION_FAILED by the same
chunk — the failed-CAS instance is not excluded from the remainder. -/
theorem c2_cas_failure_kept_bug :
    (launchChunk envAllFail createNone "small" [instC2]).trace.createCalls = [("small", 1)] ∧
    (launchChunk envAllFail createNone "small" [instC2]).trace.upserts =
      [{ id := 2, status := Status.REQUESTED, expected_version := 5, success := false },
       { id := 2, status := Status.ALLOCATION_FAILED, expected_version := 0, success := false }] := by
  decide

/-- C3: refuted on the source.  In a chunk where the REQUESTED CAS fails for
every instance, the launcher still calls the provider: `create_nodes` is
invoked with the full chunk size because the failed instances were kept in
`instances_selected`. -/
theorem c3_provider_called_bug :
    (launchChunk envAllFail createNone "gpu" [instC3]).trace.createCalls = [("gpu", 1)] := by
  decide

/-- C4: refuted on the source.  With one pending instance and one created
cloud resource, the pairing phase performs no ALLOCATED CAS write at all —
it aborts at `self._instance_storage.pop()` — so no cloud resource is linked
to an instance drawn from the chunk's pending set. -/
theorem c4_pairing_bug :
    (launchChunk envAllOk createOne "small" [instC4]).result
      = Except.error ChunkErr.storagePopUndefined ∧
    (launchChunk envAllOk createOne "small" [instC4]).trace.upserts =
      [{ id := 4, status := Status.REQUESTED, expected_version := 2, success := true }] := by
  decide

/-- C5: refuted on the source.  Scenario D (two instances of type "small",
two cloud resources created): the run aborts at the first pairing iteration,
so zero resources are terminated and zero instances are written ALLOCATED —
not the one termination and one ALLOCATED instance the claim requires. -/
theorem c5_scenario_d_bug :
    (launchChunk envAllOk createTwo "small" [instC5a, instC5b]).result
      = Except.error ChunkErr.storagePopUndefined ∧
    (launchChunk envAllOk createTwo "small" [instC5a, instC5b]).trace.terminateCalls = [] ∧
    (launchChunk envAllOk createTwo "small" [instC5a, instC5b]).trace.upserts.countP
      allocatedWrite = 0 := by
  decide

/-- C10: if the snapshot of UNKNOWN instances taken at the start of the pass
is empty, `_may_launch_new_instances` is a no-op at its public interface: it
performs no upsert call and submits no chunk to the launch worker pool (and
hence triggers no provider call, since provider calls happen only inside
submitted chunks). -/
theorem c10_empty_snapshot_noop (env : Nat → Bool × Nat) (m : Nat) :
    mayLaunchNewInstances env m [] = { upserts := [], chunks := [] } := rfl

/-- C9: under the provider contract that `create_nodes(t, n)` returns at most
`n` cloud resources, the assertion
`assert len(created_cloud_instances) <= len(instances_selected)` never fails:
no chunk run ends with the assertion error. -/
theorem c9_assert_unreachable (create : String → Nat → List CloudInstance)
    (hc : ∀ t n, (create t n).length ≤ n) (env : Nat → Bool × Nat)
    (instance_type : String) (instances : List Instance) :
    (launchChunk env create instance_type instances).result
      ≠ Except.error ChunkErr.assertionFailed := by
  unfold launchChunk
  dsimp only
  split
  · intro h
    exact Except.noConfusion h
  · rw [if_pos (hc instance_type _)]
    split
    · rename_i e heq
      rw [pairingLoop_error_eq _ _ _ heq]
      intro h
      have := Except.error.inj h
      exact ChunkErr.noConfusion this
    · intro h
      exact Except.noConfusion h

/-- Witness for C9 at a concrete input. -/
theorem c9_assert_unreachable_witness :
    (∀ t n, (createNone t n).length ≤ n) ∧
    (launchChunk envAllOk createNone "small" [instC1]).result
      ≠ Except.error ChunkErr.assertionFailed :=
  ⟨fun _ n => Nat.zero_le n,
   c9_assert_unreachable createNone (fun _ n => Nat.zero_le n) envAllOk "small" [instC1]⟩

/-- C6: in any chunk run over instances with pairwise-distinct ids, once a
record receives a successful CAS writing a terminal status (ALLOCATED or
ALLOCATION_FAILED), no later upsert call of the same chunk targets that
record. -/
theorem c6_terminal_no_further_cas (env : Nat → Bool × Nat)
    (create : String → Nat → List CloudInstance) (instance_type : String)
    (instances : List Instance) (hnd : (instances.map (fun i => i.id)).Nodup) :
    (launchChunk env create instance_type instances).trace.upserts.Pairwise noLaterCAS := by
  have hreq := requestedPhase_status env 0 instances
  have h1 : ((requestedPhase env 0 instances).1).Pairwise noLaterCAS :=
    pairwise_noLater_of_requested _ hreq
  unfold launchChunk
  dsimp only
  split
  · exact h1
  · split
    · split
      · exact h1
      · rename_i createdLeft selectedLeft heq
        have hp := pairingLoop_ok_eq _ _ _ heq
        rw [Prod.mk.injEq] at hp
        obtain ⟨hcreated, hselected⟩ := hp
        subst hselected
        rw [List.pairwise_append]
        refine ⟨h1, ?_, ?_⟩
        · split
          · exact List.Pairwise.nil
          · have hids : ((allocationFailedPhase env instances.length
                ((requestedPhase env 0 instances).2)).map (fun c => c.id))
                = instances.map (fun i => i.id) := by
              rw [allocationFailedPhase_ids, requestedPhase_snd_ids]
            have hnd2 : ((allocationFailedPhase env instances.length
                ((requestedPhase env 0 instances).2)).map (fun c => c.id)).Nodup := by
              rw [hids]; exact hnd
            have hpw := (List.pairwise_map).mp hnd2
            have himp : ∀ {c d : UpsertCall}, c.id ≠ d.id → noLaterCAS c d :=
              fun hne _ => Ne.symm hne
            exact hpw.imp himp
        · intro a ha b _ ht
          have := hreq a ha
          rcases ht.2 with h2 | h2 <;> rw [this] at h2 <;> exact absurd h2 (by decide)
    · exact h1

/-- Every call recorded by the claiming loop, in order, targets exactly the
ids of the scanned snapshot: each instance receives exactly one claiming
CAS. -/
theorem queuedPhase_fst_ids (env : Nat → Bool × Nat) (k : Nat) (l : List Instance) :
    ((queuedPhase env k l).1).map (fun c => c.id) = l.map (fun i => i.id) := by
  induction l generalizing k with
  | nil => simp [queuedPhase]
  | cons a rest ih =>
    simp only [queuedPhase]
    cases hres : (env k).1 <;> simp [hres, ih (k + 1)]

/-- The ids of the claimed (queued) instances form a sublist of the snapshot
ids. -/
theorem queuedPhase_snd_ids_sublist (env : Nat → Bool × Nat) (k : Nat) (l : List Instance) :
    (((queuedPhase env k l).2).map (fun i => i.id)).Sublist (l.map (fun i => i.id)) := by
  induction l generalizing k with
  | nil => simp [queuedPhase]
  | cons a rest ih =>
    simp only [queuedPhase]
    cases hres : (env k).1 <;> simp only [hres, if_true, if_false, Bool.false_eq_true,
      List.map_cons]
    · exact List.Sublist.cons _ (ih (k + 1))
    · exact List.Sublist.cons₂ _ (ih (k + 1))

/-- Positional characterisation of the claiming loop, with `k` the sequence
number of the first CAS: for the instance at position `pre.length` of the
snapshot, membership in the claimed set is equivalent to the success of its
CAS, there is exactly one claiming CAS targeting its id, and that CAS writes
QUEUED with `expected_version` equal to its current version. -/
theorem queuedPhase_claim_aux (env : Nat → Bool × Nat) (k : Nat)
    (pre post : List Instance) (inst : Instance)
    (hnd : ((pre ++ inst :: post).map (fun i => i.id)).Nodup) :
    ((inst.id ∈ ((queuedPhase env k (pre ++ inst :: post)).2.map (fun i => i.id)))
        ↔ (env (k + pre.length)).1 = true) ∧
    (queuedPhase env k (pre ++ inst :: post)).1.countP (fun c => c.id == inst.id) = 1 ∧
    ({ id := inst.id, status := Status.QUEUED, expected_version := inst.version,
       success := (env (k + pre.length)).1 } : UpsertCall)
      ∈ (queuedPhase env k (pre ++ inst :: post)).1 := by
  induction pre generalizing k with
  | nil =>
    simp only [List.nil_append, List.map_cons, List.nodup_cons, List.mem_map] at hnd
    obtain ⟨hnotin, _⟩ := hnd
    simp only [List.nil_append, List.length_nil, Nat.add_zero]
    have hcount0 : (queuedPhase env (k + 1) post).1.countP (fun c => c.id == inst.id) = 0 := by
      rw [List.countP_eq_zero]
      intro c hc
      have hcid : c.id ∈ ((queuedPhase env (k + 1) post).1).map (fun c => c.id) :=
        List.mem_map_of_mem _ hc
      rw [queuedPhase_fst_ids] at hcid
      obtain ⟨x, hx, hxid⟩ := List.mem_map.mp hcid
      intro hbeq
      exact hnotin ⟨x, hx, hxid.trans (beq_iff_eq.mp hbeq)⟩
    simp only [queuedPhase]
    cases hres : (env k).1
    · simp only [Bool.false_eq_true, if_false]
      refine ⟨?_, ?_, ?_⟩
      · constructor
        · intro hmem
          exfalso
          have hsub := queuedPhase_snd_ids_sublist env (k + 1) post
          have hmem2 := hsub.subset hmem
          obtain ⟨x, hx, hxid⟩ := List.mem_map.mp hmem2
          exact hnotin ⟨x, hx, hxid⟩
        · intro h
          exact absurd h (by simp)
      · rw [List.countP_cons, hcount0]
        simp
      · exact List.mem_cons_self _ _
    · simp only [if_true]
      refine ⟨?_, ?_, ?_⟩
      · simp
      · rw [List.countP_cons, hcount0]
        simp
      · exact List.mem_cons_self _ _
  | cons a pre ih =>
    have hmemtail : inst.id ∈ (pre ++ inst :: post).map (fun i => i.id) :=
      List.mem_map_of_mem _ (List.mem_append_right pre (List.mem_cons_self inst post))
    simp only [List.cons_append, List.map_cons, List.nodup_cons] at hnd
    obtain ⟨hanotin, hndtail⟩ := hnd
    have hane : a.id ≠ inst.id := fun h => hanotin (h ▸ hmemtail)
    have harith : k + (a :: pre).length = (k + 1) + pre.length := by
      simp [List.length_cons]
      omega
    rw [harith]
    have ihk := ih (k + 1) hndtail
    simp only [List.cons_append, queuedPhase, List.append_eq] at ihk ⊢
    cases hres : (env k).1
    · simp only [Bool.false_eq_true, if_false]
      refine ⟨ihk.1, ?_, List.mem_cons_of_mem _ ihk.2.2⟩
      rw [List.countP_cons, ihk.2.1]
      simp [hane]
    · simp only [if_true]
      refine ⟨?_, ?_, List.mem_cons_of_mem _ ihk.2.2⟩
      · simp only [List.map_cons, List.mem_cons]
        constructor
        · intro h
          rcases h with h | h
          · exact absurd h (by simpa using hane.symm)
          · exact ihk.1.mp h
        · intro h
          exact Or.inr (ihk.1.mpr h)
      · rw [List.countP_cons, ihk.2.1]
        simp [hane]

/-- C7: in a reconciliation pass over a snapshot of UNKNOWN instances with
distinct ids, the instance at any position of the snapshot is claimed
(member of `queued_instances`) if and only if its CAS to QUEUED — issued
with `expected_version` equal to its current version — succeeds, and exactly
one claiming CAS of the pass targets it (a loser is skipped, not retried). -/
theorem c7_claimed_iff_cas (env : Nat → Bool × Nat) (pre post : List Instance) (inst : Instance)
    (hnd : ((pre ++ inst :: post).map (fun i => i.id)).Nodup) :
    ((inst.id ∈ ((queuedPhase env 0 (pre ++ inst :: post)).2.map (fun i => i.id)))
        ↔ (env pre.length).1 = true) ∧
    (queuedPhase env 0 (pre ++ inst :: post)).1.countP (fun c => c.id == inst.id) = 1 ∧
    ({ id := inst.id, status := Status.QUEUED, expected_version := inst.version,
       success := (env pre.length).1 } : UpsertCall)
      ∈ (queuedPhase env 0 (pre ++ inst :: post)).1 := by
  have h := queuedPhase_claim_aux env 0 pre post inst hnd
  simpa using h

/-- Witness for C7 at a concrete input. -/
theorem c7_claimed_iff_cas_witness :
    (((([] : List Instance) ++ instC3 :: []).map (fun i => i.id)).Nodup) ∧
    (((instC3.id ∈ ((queuedPhase envAllOk 0
          (([] : List Instance) ++ instC3 :: [])).2.map (fun i => i.id)))
        ↔ (envAllOk ([] : List Instance).length).1 = true) ∧
    (queuedPhase envAllOk 0 (([] : List Instance) ++ instC3 :: [])).1.countP
      (fun c => c.id == instC3.id) = 1 ∧
    ({ id := instC3.id, status := Status.QUEUED, expected_version := instC3.version,
       success := (envAllOk ([] : List Instance).length).1 } : UpsertCall)
      ∈ (queuedPhase envAllOk 0 (([] : List Instance) ++ instC3 :: [])).1) :=
  ⟨by decide, c7_claimed_iff_cas envAllOk [] [] instC3 (by decide)⟩

/-- Witness for C6 at a concrete input. -/
theorem c6_terminal_no_further_cas_witness :
    (([instC5a, instC5b].map (fun i => i.id)).Nodup) ∧
    (launchChunk envAllFail createNone "small" [instC5a, instC5b]).trace.upserts.Pairwise
      noLaterCAS :=
  ⟨by decide,
   c6_terminal_no_further_cas envAllFail createNone "small" [instC5a, instC5b] (by decide)⟩

/-- Flattening the chunks of a list gives the list back (python's slicing
loop neither drops, duplicates, nor reorders elements). -/
theorem chunksOf_flatten (m : Nat) (l : List α) : (chunksOf m l).flatten = l := by
  cases l with
  | nil => simp [chunksOf]
  | cons a rest =>
    have ih := chunksOf_flatten m (rest.drop (m - 1))
    simp only [chunksOf, List.flatten_cons, ih, List.cons_append, List.take_append_drop]
termination_by l.length
decreasing_by simp [List.length_drop]; omega

/-- Every chunk produced by the slicing loop has size at most `m`. -/
theorem chunksOf_length_le (m : Nat) (hm : 0 < m) (l : List α) :
    ∀ c ∈ chunksOf m l, c.length ≤ m := by
  cases l with
  | nil => intro c hc; simp [chunksOf] at hc
  | cons a rest =>
    intro c hc
    have ih := chunksOf_length_le m hm (rest.drop (m - 1))
    simp only [chunksOf, List.mem_cons] at hc
    rcases hc with h | h
    · rw [h]
      simp only [List.length_cons, List.length_take]
      have := Nat.min_le_left (m - 1) rest.length
      omega
    · exact ih c h
termination_by l.length
decreasing_by simp [List.length_drop]; omega

/-- One grouping step leaves the key list unchanged when the instance's type
is already a key, and otherwise appends the type as a new key. -/
theorem addToGroups_keys (groups : List (String × List Instance)) (i : Instance) :
    (addToGroups groups i).map Prod.fst =
      (if i.instance_type ∈ groups.map Prod.fst then groups.map Prod.fst
       else groups.map Prod.fst ++ [i.instance_type]) := by
  induction groups with
  | nil => simp [addToGroups]
  | cons hd rest ih =>
    obtain ⟨t, g⟩ := hd
    simp only [addToGroups]
    by_cases h : t = i.instance_type
    · rw [if_pos h]
      simp [h]
    · rw [if_neg h]
      have hne : ¬ i.instance_type = t := fun hh => h hh.symm
      simp only [List.map_cons, ih]
      by_cases h2 : i.instance_type ∈ rest.map Prod.fst
      · rw [if_pos h2, if_pos (List.mem_cons_of_mem _ h2)]
      · rw [if_neg h2, if_neg (by simp [List.mem_cons, hne, h2]), List.cons_append]

/-- Case analysis for membership in the result of one grouping step (under
distinct keys): an untouched group of another type, the group of the
instance's type with the instance appended, or a fresh singleton group. -/
theorem mem_addToGroups (groups : List (String × List Instance)) (i : Instance)
    (hk : (groups.map Prod.fst).Nodup) (p : String × List Instance)
    (hp : p ∈ addToGroups groups i) :
    (p ∈ groups ∧ p.1 ≠ i.instance_type) ∨
    (∃ g, (p.1, g) ∈ groups ∧ p.1 = i.instance_type ∧ p.2 = g ++ [i]) ∨
    (p = (i.instance_type, [i]) ∧ i.instance_type ∉ groups.map Prod.fst) := by
  induction groups with
  | nil =>
    simp only [addToGroups, List.mem_singleton] at hp
    right; right
    simp [hp]
  | cons hd rest ih =>
    obtain ⟨t, g⟩ := hd
    simp only [List.map_cons, List.nodup_cons] at hk
    obtain ⟨htnot, hkrest⟩ := hk
    simp only [addToGroups] at hp
    by_cases h : t = i.instance_type
    · rw [if_pos h] at hp
      rcases List.mem_cons.mp hp with h1 | h1
      · right; left
        refine ⟨g, ?_, ?_, ?_⟩
        · rw [h1]
          exact List.mem_cons_self _ _
        · rw [h1, h]
        · rw [h1]
      · left
        refine ⟨List.mem_cons_of_mem _ h1, ?_⟩
        intro hpt
        apply htnot
        rw [← h] at hpt
        exact hpt ▸ List.mem_map_of_mem Prod.fst h1
    · rw [if_neg h] at hp
      rcases List.mem_cons.mp hp with h1 | h1
      · left
        refine ⟨by rw [h1]; exact List.mem_cons_self _ _, ?_⟩
        rw [h1]
        exact fun hh => h hh
      · rcases ih hkrest h1 with ⟨hmem, hne⟩ | ⟨g0, hmem, heq, hval⟩ | ⟨heq, hnotin⟩
        · exact Or.inl ⟨List.mem_cons_of_mem _ hmem, hne⟩
        · exact Or.inr (Or.inl ⟨g0, List.mem_cons_of_mem _ hmem, heq, hval⟩)
        · refine Or.inr (Or.inr ⟨heq, ?_⟩)
          intro hmem2
          rcases List.mem_cons.mp hmem2 with h2 | h2
          · exact h h2.symm
          · exact hnotin h2

/-- One grouping step preserves the `GroupsFor` invariant, extending the
scanned prefix by the grouped instance. -/
theorem groupsFor_step (q : List Instance) (groups : List (String × List Instance))
    (i : Instance) (h : GroupsFor q groups) : GroupsFor (q ++ [i]) (addToGroups groups i) := by
  obtain ⟨hk, hval, hcomp⟩ := h
  refine ⟨?_, ?_, ?_⟩
  · rw [addToGroups_keys]
    by_cases h2 : i.instance_type ∈ groups.map Prod.fst
    · rw [if_pos h2]
      exact hk
    · rw [if_neg h2]
      refine List.nodup_append.mpr ⟨hk, List.nodup_singleton _, ?_⟩
      intro a ha hmem
      rw [List.mem_singleton] at hmem
      exact h2 (hmem ▸ ha)
  · intro p hp
    rcases mem_addToGroups groups i hk p hp with ⟨hmem, hne⟩ | ⟨g, hmem, heq, hval2⟩
        | ⟨heq, hnotin⟩
    · rw [List.filter_append, ← hval p hmem]
      have : ([i].filter (fun x => x.instance_type == p.1)) = [] := by
        simp only [List.filter_eq_nil_iff, List.mem_singleton]
        intro a ha hbeq
        rw [ha] at hbeq
        exact hne (beq_iff_eq.mp hbeq).symm
      rw [this, List.append_nil]
    · rw [List.filter_append, ← hval (p.1, g) hmem]
      have : ([i].filter (fun x => x.instance_type == p.1)) = [i] := by
        simp [beq_iff_eq, heq]
      rw [this, hval2]
    · have hq : q.filter (fun x => x.instance_type == p.1) = [] := by
        rw [List.filter_eq_nil_iff]
        intro a ha hbeq
        apply hnotin
        have h1 : a.instance_type = p.1 := beq_iff_eq.mp hbeq
        have h2 : p.1 = i.instance_type := by rw [heq]
        exact h2 ▸ h1 ▸ hcomp a ha
      rw [List.filter_append, hq, List.nil_append]
      have : ([i].filter (fun x => x.instance_type == p.1)) = [i] := by
        simp [beq_iff_eq, heq]
      rw [this, heq]
  · intro x hx
    rw [addToGroups_keys]
    rcases List.mem_append.mp hx with hx | hx
    · by_cases h2 : i.instance_type ∈ groups.map Prod.fst
      · rw [if_pos h2]
        exact hcomp x hx
      · rw [if_neg h2]
        exact List.mem_append_left _ (hcomp x hx)
    · rw [List.mem_singleton] at hx
      rw [hx]
      by_cases h2 : i.instance_type ∈ groups.map Prod.fst
      · rw [if_pos h2]
        exact h2
      · rw [if_neg h2]
        exact List.mem_append_right _ (List.mem_singleton_self _)

/-- Folding the grouping step over a suffix preserves the invariant. -/
theorem groupsFor_foldl (rest : List Instance) :
    ∀ (q : List Instance) (groups : List (String × List Instance)), GroupsFor q groups →
      GroupsFor (q ++ rest) (rest.foldl addToGroups groups) := by
  induction rest with
  | nil =>
    intro q groups h
    simpa using h
  | cons i rest ih =>
    intro q groups h
    have h3 := ih (q ++ [i]) (addToGroups groups i) (groupsFor_step q groups i h)
    rw [List.foldl_cons]
    have : q ++ [i] ++ rest = q ++ i :: rest := by simp
    rw [this] at h3
    exact h3

/-- The grouping loop satisfies the invariant with respect to the full list
of claimed instances. -/
theorem groupsFor_instancesByType (q : List Instance) : GroupsFor q (instancesByType q) := by
  have h0 : GroupsFor [] [] := by
    refine ⟨List.nodup_nil, ?_, ?_⟩
    · intro p hp
      cases hp
    · intro i hi
      cases hi
  have h := groupsFor_foldl q [] [] h0
  simpa [instancesByType] using h

/-- Filtering key-tagged chunks by a key keeps either all of them or none. -/
theorem filter_key_map_chunks (t s : String) (cs : List (List Instance)) :
    ((cs.map (fun c => (s, c))).filter (fun p => p.1 == t))
      = if s = t then cs.map (fun c => (s, c)) else [] := by
  induction cs with
  | nil => simp
  | cons c cs ih =>
    simp only [List.map_cons, List.filter_cons]
    by_cases h : s = t
    · simp only [ih, if_pos h]
      rw [if_pos (by simp [beq_iff_eq, h])]
    · simp only [ih, if_neg h]
      rw [if_neg (by simp [beq_iff_eq, h])]

/-- Selecting the chunks carrying key `t` from the submitted chunk list and
flattening them gives the same instances as flattening the groups with key
`t`. -/
theorem chunks_filter_key (m : Nat) (t : String) (groups : List (String × List Instance)) :
    ((((groups.map (fun g => (chunksOf m g.2).map (fun c => (g.1, c)))).flatten.filter
        (fun p => p.1 == t)).map Prod.snd).flatten)
      = ((groups.filter (fun g => g.1 == t)).map Prod.snd).flatten := by
  induction groups with
  | nil => simp
  | cons hd rest ih =>
    obtain ⟨s, g⟩ := hd
    simp only [List.map_cons, List.flatten_cons, List.filter_append, List.map_append,
      List.flatten_append, ih, filter_key_map_chunks, List.filter_cons]
    by_cases h : s = t
    · rw [if_pos h, if_pos (by simp [beq_iff_eq, h])]
      simp only [List.map_cons, List.flatten_cons]
      congr 1
      rw [List.map_map]
      have hcomp2 : (Prod.snd ∘ fun c => ((s, c) : String × List Instance)) = fun c => c := rfl
      rw [hcomp2, List.map_id']
      exact chunksOf_flatten m g
    · rw [if_neg h, if_neg (by simp [beq_iff_eq, h])]
      simp

/-- Under the `GroupsFor` invariant, flattening the groups with key `t`
recovers exactly the claimed instances of type `t`. -/
theorem groups_filter_snd_flatten (q : List Instance) (t : String) :
    ∀ (groups : List (String × List Instance)),
      GroupsFor q groups →
      ((groups.filter (fun g => g.1 == t)).map Prod.snd).flatten
        = q.filter (fun i => i.instance_type == t) := by
  have aux : ∀ (groups : List (String × List Instance)),
      (groups.map Prod.fst).Nodup →
      (∀ p ∈ groups, p.2 = q.filter (fun i => i.instance_type == p.1)) →
      t ∈ groups.map Prod.fst →
      ((groups.filter (fun g => g.1 == t)).map Prod.snd).flatten
        = q.filter (fun i => i.instance_type == t) := by
    intro groups
    induction groups with
    | nil =>
      intro _ _ ht
      simp at ht
    | cons hd rest ih =>
      intro hk hval ht
      obtain ⟨s, g⟩ := hd
      simp only [List.map_cons, List.nodup_cons] at hk
      obtain ⟨hsnot, hkrest⟩ := hk
      rw [List.filter_cons]
      by_cases hst : s = t
      · rw [if_pos (by simp [beq_iff_eq, hst])]
        have hrest : rest.filter (fun g => g.1 == t) = [] := by
          rw [List.filter_eq_nil_iff]
          intro p hp hbeq
          apply hsnot
          rw [hst]
          have hpt : p.1 = t := beq_iff_eq.mp hbeq
          exact hpt ▸ List.mem_map_of_mem Prod.fst hp
        rw [hrest]
        simp only [List.map_cons, List.map_nil, List.flatten_cons, List.flatten_nil,
          List.append_nil]
        have hgval : g = List.filter (fun i => i.instance_type == s) q :=
          hval (s, g) (List.mem_cons_self _ _)
        rw [hgval, hst]
      · rw [if_neg (by simp [beq_iff_eq, hst])]
        refine ih hkrest (fun p hp => hval p (List.mem_cons_of_mem _ hp)) ?_
        rcases List.mem_cons.mp ht with h2 | h2
        · exact absurd h2.symm hst
        · exact h2
  intro groups h
  obtain ⟨hk, hval, hcomp⟩ := h
  by_cases ht : t ∈ groups.map Prod.fst
  · exact aux groups hk hval ht
  · have h1 : groups.filter (fun g => g.1 == t) = [] := by
      rw [List.filter_eq_nil_iff]
      intro p hp hbeq
      apply ht
      have hpt : p.1 = t := beq_iff_eq.mp hbeq
      exact hpt ▸ List.mem_map_of_mem Prod.fst hp
    have h2 : q.filter (fun i => i.instance_type == t) = [] := by
      rw [List.filter_eq_nil_iff]
      intro a ha hbeq
      apply ht
      have hat : a.instance_type = t := beq_iff_eq.mp hbeq
      exact hat ▸ hcomp a ha
    rw [h1, h2]
    rfl

/-- C8: a reconciliation pass groups the claimed instances by type and
submits them as chunks such that every chunk holds instances of its own
single type, every chunk has at most `max_nodes_per_request` instances, and
for each type the submitted chunks together hold exactly the claimed
instances of that type — none duplicated, none left out. -/
theorem c8_grouping_chunks (env : Nat → Bool × Nat) (m : Nat) (hm : 0 < m)
    (l : List Instance) :
    (∀ p ∈ (mayLaunchNewInstances env m l).chunks,
        (∀ i ∈ p.2, i.instance_type = p.1) ∧ p.2.length ≤ m) ∧
    (∀ t, ((((mayLaunchNewInstances env m l).chunks.filter (fun p => p.1 == t)).map
          Prod.snd).flatten)
        = ((queuedPhase env 0 l).2.filter (fun i => i.instance_type == t))) := by
  unfold mayLaunchNewInstances
  dsimp only
  split
  · rename_i hemp
    have hl : l = [] := List.isEmpty_iff.mp hemp
    subst hl
    constructor
    · intro p hp
      cases hp
    · intro t
      simp [queuedPhase]
  · have hGF := groupsFor_instancesByType ((queuedPhase env 0 l).2)
    constructor
    · intro p hp
      rw [List.mem_flatten] at hp
      obtain ⟨lc, hlc, hplc⟩ := hp
      rw [List.mem_map] at hlc
      obtain ⟨grp, hgrp, hlceq⟩ := hlc
      rw [← hlceq, List.mem_map] at hplc
      obtain ⟨c, hc, hpeq⟩ := hplc
      rw [← hpeq]
      constructor
      · intro i hi
        have hic : i ∈ (chunksOf m grp.2).flatten := List.mem_flatten.mpr ⟨c, hc, hi⟩
        rw [chunksOf_flatten] at hic
        rw [hGF.2.1 grp hgrp] at hic
        exact beq_iff_eq.mp (List.mem_filter.mp hic).2
      · exact chunksOf_length_le m hm grp.2 c hc
    · intro t
      rw [chunks_filter_key]
      exact groups_filter_snd_flatten ((queuedPhase env 0 l).2) t
        (instancesByType ((queuedPhase env 0 l).2)) hGF

/-- Witness for C8 at a concrete input. -/
theorem c8_grouping_chunks_witness :
    0 < 2 ∧
    ((∀ p ∈ (mayLaunchNewInstances envAllOk 2 [instC1, instC3, instC4]).chunks,
        (∀ i ∈ p.2, i.instance_type = p.1) ∧ p.2.length ≤ 2) ∧
    (∀ t, ((((mayLaunchNewInstances envAllOk 2 [instC1, instC3, instC4]).chunks.filter
          (fun p => p.1 == t)).map Prod.snd).flatten)
        = ((queuedPhase envAllOk 0 [instC1, instC3, instC4]).2.filter
            (fun i => i.instance_type == t)))) :=
  ⟨Nat.zero_lt_succ 1, c8_grouping_chunks envAllOk 2 (Nat.zero_lt_succ 1) [instC1, instC3, instC4]⟩

end RayAutoscaler
